import Mathlib

/-!
untappd: user checkins, CLI argument helpers and tabular printing

A shallow embedding of `user_checkins.go`, `cmd/untappdctl/main.go` and
`cmd/untappdctl/print.go`.

Conventions of the embedding:

* Go `int` values are `Int`; they are only passed around and formatted, never
  computed with, so no wrap-around is involved.
* Go `string` values are `String` (valid UTF-8 text).
* `log.Fatalf` terminates the process; a function that may call it returns
  `Except String α`, the error carrying the formatted message.
* A `*tabwriter.Writer` is modelled by the text written to it so far; every
  `fmt.Fprintf`/`fmt.Fprintln` call appends to that text.
* Functions of the repository that are not part of the three files
  (`getCheckins`, `untappd.Sorts`) are parameters.
-/

namespace Untappd

/-! ## user_checkins.go -/

/-- Go `math.MaxInt32`. -/
def MaxInt32 : Int := 2147483647

/-- The receiver of the user API methods: it only holds the client. -/
structure UserService (Client : Type) where
  client : Client

/-- Method `UserService.CheckinsMinMaxIDLimit`: one call of `getCheckins` (a parameter) on the
service's client. -/
def UserService.CheckinsMinMaxIDLimit {Client Result : Type}
    (getCheckins : Client → String → Int → Int → Int → Result)
    (u : UserService Client) (username : String) (minID maxID limit : Int) : Result :=
  getCheckins u.client ("user/checkins/" ++ username) minID maxID limit

/-- Method `UserService.Checkins`: the paged call with the default parameters. -/
def UserService.Checkins {Client Result : Type}
    (getCheckins : Client → String → Int → Int → Int → Result)
    (u : UserService Client) (username : String) : Result :=
  u.CheckinsMinMaxIDLimit getCheckins username 0 MaxInt32 25

/-! ## cmd/untappdctl/main.go -/

/-- The part of `*cli.Context` the helpers read: the positional arguments and
the values of the integer and string flags. -/
structure Context where
  args : List String
  intFlag : String → Int
  stringFlag : String → String

/-- Method `cli.Args.First`: the first positional argument, or `""` when there is none. -/
def Args.First (args : List String) : String :=
  match args with
  | [] => ""
  | a :: _ => a

/-- The call `ctx.Int(name)`: the value of an integer flag. -/
def Context.Int (ctx : Context) (name : String) : Int := ctx.intFlag name

/-- The call `ctx.String(name)`: the value of a string flag. -/
def Context.String (ctx : Context) (name : String) : String := ctx.stringFlag name

/-- Function `mustStringArg`: the first positional argument, or a fatal error. -/
def mustStringArg (ctx : Context) (name : String) : Except String String :=
  let a := Args.First ctx.args
  if a = "" then
    Except.error ("missing argument: " ++ name)
  else
    Except.ok a

/-- A sort token, Go `type Sort string`; `Sort` itself is a reserved word here. -/
abbrev SortT := String

/-- One hexadecimal digit of `strconv`, from the table `"0123456789abcdef"`. -/
def lowerhex (n : Nat) : Char :=
  "0123456789abcdef".data.getD (n % 16) '0'

/-- The escape sequence `strconv.Quote` writes for a rune: the quote and the
backslash are always backslashed, a printable rune is copied, and anything
else is written as a named, `\x`, `\u` or `\U` escape. `isPrint` stands for
`strconv.IsPrint`. -/
def escapeRune (isPrint : Char → Bool) (r : Char) : String :=
  if r = '"' ∨ r = '\\' then String.mk ['\\', r]
  else if isPrint r then String.mk [r]
  else if r = '\x07' then "\\a"
  else if r = '\x08' then "\\b"
  else if r = '\x0c' then "\\f"
  else if r = '\n' then "\\n"
  else if r = '\r' then "\\r"
  else if r = '\t' then "\\t"
  else if r = '\x0b' then "\\v"
  else if r.toNat < 32 ∨ r.toNat = 127 then
    String.mk ['\\', 'x', lowerhex (r.toNat / 16), lowerhex r.toNat]
  else if r.toNat < 65536 then
    String.mk ['\\', 'u', lowerhex (r.toNat / 4096), lowerhex (r.toNat / 256),
      lowerhex (r.toNat / 16), lowerhex r.toNat]
  else
    String.mk ['\\', 'U', lowerhex (r.toNat / 268435456), lowerhex (r.toNat / 16777216),
      lowerhex (r.toNat / 1048576), lowerhex (r.toNat / 65536), lowerhex (r.toNat / 4096),
      lowerhex (r.toNat / 256), lowerhex (r.toNat / 16), lowerhex r.toNat]

/-- The verb `%q` on a string, `strconv.Quote`: the escaped runes between
double quotes. -/
def fmtQ (isPrint : Char → Bool) (s : String) : String :=
  "\"" ++ String.join (s.data.map (escapeRune isPrint)) ++ "\""

/-- The verb `%s` on a `[]Sort`: the elements separated by blanks, in brackets. -/
def fmtSorts (sorts : List SortT) : String :=
  "[" ++ " ".intercalate sorts ++ "]"

/-- The loop of `offsetLimitSort` over `untappd.Sorts()`: the first element
equal to `sort` ends the function with the triple. -/
def sortLoop (offset limit : Int) (sort : String) : List SortT → Option (Int × Int × SortT)
  | [] => none
  | s :: rest => if sort = s then some (offset, limit, s) else sortLoop offset limit sort rest

/-- The text `log.Fatalf("invalid sort type %q (options: %s)", sort, untappd.Sorts())`
formats; the logger writes it after its prefix and ends the line. -/
def invalidSortMessage (isPrint : Char → Bool) (sort : String) (Sorts : List SortT) : String :=
  "invalid sort type " ++ fmtQ isPrint sort ++ " (options: " ++ fmtSorts Sorts ++ ")"

/-- Function `offsetLimitSort`; `Sorts` is the list `untappd.Sorts()` returns. -/
def offsetLimitSort (isPrint : Char → Bool) (Sorts : List SortT) (ctx : Context) :
    Except String (Int × Int × SortT) :=
  let offset := ctx.Int "offset"
  let limit := ctx.Int "limit"
  let sort := ctx.String "sort"
  if sort = "" then
    Except.ok (offset, limit, "")
  else
    match sortLoop offset limit sort Sorts with
    | some r => Except.ok r
    | none =>
      Except.error (invalidSortMessage isPrint sort Sorts)

/-- The printable ASCII runes, on which `strconv.IsPrint` is true; it is false
on the other ASCII runes. -/
def asciiPrint (c : Char) : Bool := decide (32 ≤ c.toNat ∧ c.toNat < 127)

/-! ## cmd/untappdctl/print.go -/

/-- The verb `%d` on an `int`: the decimal digits, after a minus sign for a
negative number. -/
def fmtD (n : Int) : String := toString n

/-- The text `s` after as many `'0'` as it takes to reach the width `w`. -/
def zeroPad (w : Nat) (s : String) : String :=
  String.mk (List.replicate (w - s.length) '0') ++ s

/-- The verbs `%04d` and `%02d` on an integer: the digits are padded with
zeros to the width, and the sign of a negative number counts in the width. -/
def fmtD0 (w : Nat) (n : Int) : String :=
  if n < 0 then "-" ++ zeroPad (w - 1) (toString n.natAbs) else zeroPad w (toString n.natAbs)

/-- What `time.Time.Date` returns: year, month and day. -/
structure Date where
  year : Int
  month : Int
  day : Int

/-- The fields of `untappd.Badge` that are printed; `Earned` holds the date of
the time stamp. -/
inductive Badge where
  | mk (ID : Int) (Name : String) (Earned : Date) (CheckinID : Int) (Levels : List Badge)

/-- Field `ID`. -/
def Badge.ID : Badge → Int
  | .mk i _ _ _ _ => i

/-- Field `Name`. -/
def Badge.Name : Badge → String
  | .mk _ n _ _ _ => n

/-- Field `Earned`. -/
def Badge.Earned : Badge → Date
  | .mk _ _ e _ _ => e

/-- Field `CheckinID`. -/
def Badge.CheckinID : Badge → Int
  | .mk _ _ _ c _ => c

/-- Field `Levels`. -/
def Badge.Levels : Badge → List Badge
  | .mk _ _ _ _ l => l

/-- The closure `printFn` of `printBadges`: one `Fprintf` of a badge's row. -/
def printFn (tw : String) (b : Badge) : String :=
  tw ++ (fmtD b.ID ++ "\t" ++ b.Name ++ "\t" ++
    (fmtD0 4 b.Earned.year ++ "-" ++ fmtD0 2 b.Earned.month ++ "-" ++ fmtD0 2 b.Earned.day) ++
    "\t" ++ fmtD b.CheckinID ++ "\n")

/-- Function `printBadges`: the text written to the tab writer. -/
def printBadges (badges : List Badge) : String :=
  let tw := ""
  let tw := tw ++ ("ID\tName\tEarned\tCheckinID" ++ "\n")
  badges.foldl (fun tw b => b.Levels.foldl (fun tw bb => printFn tw bb) (printFn tw b)) tw

/-- The city and state of a brewery. -/
structure BreweryLocation where
  City : String
  State : String

/-- The fields of `untappd.Brewery` that are printed. -/
structure Brewery where
  ID : Int
  Name : String
  Country : String
  Location : BreweryLocation

/-- The value of `l` in the loop body of `printBreweries`. -/
def breweryLocation (b : Brewery) : String :=
  let l := b.Country
  if b.Location.City ≠ "" ∧ b.Location.State ≠ "" then
    b.Location.City ++ ", " ++ b.Location.State ++ ", " ++ b.Country
  else
    l

/-- Function `printBreweries`: the text written to the tab writer. -/
def printBreweries (breweries : List Brewery) : String :=
  let tw := ""
  let tw := tw ++ ("ID\tName\tLocation" ++ "\n")
  breweries.foldl (fun tw b =>
    let l := breweryLocation b
    tw ++ (fmtD b.ID ++ "\t" ++ b.Name ++ "\t" ++ l ++ "\n")) tw

/-- A Go `float64`: a finite value `± m * 2 ^ e`, an infinity, or a NaN. -/
inductive Float64 where
  | finite (neg : Bool) (m : Nat) (e : Int)
  | inf (neg : Bool)
  | nan

/-- The quotient `num / den` rounded to the nearest integer, a tie to the even one. -/
def roundHalfEven (num den : Nat) : Nat :=
  let q := num / den
  let r := num % den
  if 2 * r < den then q
  else if den < 2 * r then q + 1
  else if q % 2 = 0 then q else q + 1

/-- The absolute value of a finite `float64` in hundredths, correctly rounded. -/
def hundredths (m : Nat) (e : Int) : Nat :=
  if 0 ≤ e then m * 2 ^ e.toNat * 100 else roundHalfEven (m * 100) (2 ^ (-e).toNat)

/-- The verb `%0.2f`: fixed point with two decimals. -/
def fmtF2 : Float64 → String
  | .nan => "NaN"
  | .inf neg => if neg then "-Inf" else "+Inf"
  | .finite neg m e =>
    let h := hundredths m e
    (if neg then "-" else "") ++ toString (h / 100) ++ "." ++ zeroPad 2 (toString (h % 100))

/-- The field of `untappd.Beer` that `printCheckins` prints. -/
structure Beer where
  Name : String

/-- The fields of `untappd.Checkin` that are printed; of the three
collections only the length is. -/
structure Checkin (Toast Comment : Type) where
  ID : Int
  Beer : Beer
  Brewery : Brewery
  UserRating : Float64
  Badges : List Badge
  Toasts : List Toast
  Comments : List Comment
  Comment : String

/-- Function `printCheckins`: the text written to the tab writer. -/
def printCheckins {Toast Comment : Type} (checkins : List (Checkin Toast Comment)) : String :=
  let tw := ""
  let tw := tw ++ ("ID\tName\tBrewery\tRating\tBadges\tToasts\tComments\tComment" ++ "\n")
  checkins.foldl (fun tw c =>
    tw ++ (fmtD c.ID ++ "\t" ++ c.Beer.Name ++ "\t" ++ c.Brewery.Name ++ "\t" ++
      fmtF2 c.UserRating ++ "\t" ++ fmtD c.Badges.length ++ "\t" ++ fmtD c.Toasts.length ++
      "\t" ++ fmtD c.Comments.length ++ "\t" ++ c.Comment ++ "\n")) tw

/-- The totals of a user. -/
structure UserStats where
  TotalCheckins : Int
  TotalBadges : Int
  TotalBeers : Int

/-- The fields of `untappd.User` that are printed. -/
structure User where
  UID : Int
  UserName : String
  FirstName : String
  LastName : String
  Stats : UserStats

/-- Function `printUsers`: the text written to the tab writer. -/
def printUsers (users : List User) (info : Bool) : String :=
  let tw := ""
  let header := "ID\tUserName\tName"
  let header := if info then header ++ "\tCheckins\tBadges\tBeers" else header
  let tw := tw ++ (header ++ "\n")
  users.foldl (fun tw u =>
    let tw := tw ++ (fmtD u.UID ++ "\t" ++ u.UserName ++ "\t" ++ u.FirstName ++ " " ++ u.LastName)
    let tw := if info then
        tw ++ ("\t" ++ fmtD u.Stats.TotalCheckins ++ "\t" ++ fmtD u.Stats.TotalBadges ++
          "\t" ++ fmtD u.Stats.TotalBeers)
      else tw
    tw ++ "\n") tw

/-- A text without a tab and without a newline. -/
def Plain (s : String) : Prop := '\t' ∉ s.data ∧ '\n' ∉ s.data

/-- A badge without its levels. -/
def Badge.dropLevels (b : Badge) : Badge := .mk b.ID b.Name b.Earned b.CheckinID []

/-- A badge whose levels have lost their own levels. -/
def Badge.oneLevel (b : Badge) : Badge :=
  .mk b.ID b.Name b.Earned b.CheckinID (b.Levels.map Badge.dropLevels)

/-- A context with the given positional arguments and value of the `sort`
flag; `offset` is 10 and `limit` is 25. -/
def sampleContext (args : List String) (sort : String) : Context where
  args := args
  intFlag := fun name => if name = "offset" then 10 else if name = "limit" then 25 else 0
  stringFlag := fun name => if name = "sort" then sort else ""

/-- The pieces of a text between its newlines; a text that ends in a newline
has the empty text as last piece. -/
def linesOf (s : String) : List String := (s.data.splitOn '\n').map String.mk

/-- The pieces of a line between its tabs. -/
def fieldsOf (s : String) : List String := (s.data.splitOn '\t').map String.mk

/-- A checkin of the beer `b` of the brewery `br`, rated 3.75, with the given comment. -/
def sampleCheckin (comment : String) : Checkin Unit Unit where
  ID := 1
  Beer := ⟨"b"⟩
  Brewery := ⟨2, "br", "US", ⟨"", ""⟩⟩
  UserRating := .finite false 15 (-2)
  Badges := []
  Toasts := []
  Comments := [()]
  Comment := comment

/-- Two badges: `Newbie` with one level, which has a level of its own, and
`Apprentice` without levels; `name` is the name of the second. -/
def sampleBadges (name : String) : List Badge :=
  [.mk 1 "Newbie" ⟨2015, 3, 4⟩ 70 [.mk 2 "Newbie II" ⟨2015, 11, 21⟩ 71
      [.mk 3 "Newbie III" ⟨2016, 1, 1⟩ 72 []]],
    .mk 4 name ⟨2014, 12, 31⟩ 73 []]

/-- The user `gopher` with the given first name and the totals 10, 2 and 7. -/
def sampleUser (firstName : String) : User where
  UID := 1
  UserName := "gopher"
  FirstName := firstName
  LastName := "Pher"
  Stats := ⟨10, 2, 7⟩

/-! ## Texts -/

theorem digitChar_plain (k : Nat) (hk : k < 10) :
    Nat.digitChar k ≠ '\t' ∧ Nat.digitChar k ≠ '\n' := by
  interval_cases k <;> decide

theorem toDigitsCore_plain (fuel : Nat) : ∀ (n : Nat) (ds : List Char) (c : Char),
    c ∈ Nat.toDigitsCore 10 fuel n ds → c ∈ ds ∨ (c ≠ '\t' ∧ c ≠ '\n') := by
  induction fuel with
  | zero => intro n ds c h; left; simpa [Nat.toDigitsCore] using h
  | succ fuel ih =>
    intro n ds c h
    simp only [Nat.toDigitsCore] at h
    split at h
    · rcases List.mem_cons.1 h with h | h
      · right; rw [h]; exact digitChar_plain _ (Nat.mod_lt _ (by decide))
      · left; exact h
    · rcases ih _ _ _ h with h | h
      · rcases List.mem_cons.1 h with h | h
        · right; rw [h]; exact digitChar_plain _ (Nat.mod_lt _ (by decide))
        · left; exact h
      · right; exact h

theorem natToString_plain (n : Nat) (c : Char) (h : c ∈ (toString n).data) :
    c ≠ '\t' ∧ c ≠ '\n' := by
  have h2 : c ∈ Nat.toDigitsCore 10 (n + 1) n [] := h
  rcases toDigitsCore_plain _ _ _ _ h2 with h | h
  · simp at h
  · exact h

theorem intToString_plain (n : Int) (c : Char) (h : c ∈ (toString n).data) :
    c ≠ '\t' ∧ c ≠ '\n' := by
  cases n with
  | ofNat m => exact natToString_plain m c h
  | negSucc m =>
    have h2 : c ∈ ("-" ++ toString (m + 1)).data := h
    rw [String.data_append] at h2
    rcases List.mem_append.1 h2 with h3 | h3
    · have : c = '-' := by simpa using h3
      rw [this]; decide
    · exact natToString_plain _ c h3

theorem plain_iff (s : String) : Plain s ↔ ∀ c ∈ s.data, c ≠ '\t' ∧ c ≠ '\n' := by
  unfold Plain
  constructor
  · rintro ⟨h1, h2⟩ c hc
    exact ⟨fun h => h1 (h ▸ hc), fun h => h2 (h ▸ hc)⟩
  · intro h
    exact ⟨fun hc => (h _ hc).1 rfl, fun hc => (h _ hc).2 rfl⟩

theorem plain_append {s t : String} (hs : Plain s) (ht : Plain t) : Plain (s ++ t) := by
  unfold Plain at *
  simp only [String.data_append, List.mem_append, not_or]
  exact ⟨⟨hs.1, ht.1⟩, ⟨hs.2, ht.2⟩⟩

theorem fmtD_plain (n : Int) : Plain (fmtD n) :=
  (plain_iff _).2 (intToString_plain n)

theorem natToString_isPlain (n : Nat) : Plain (toString n) :=
  (plain_iff _).2 (natToString_plain n)

theorem zeroPad_plain (w : Nat) {s : String} (hs : Plain s) : Plain (zeroPad w s) := by
  unfold zeroPad
  refine plain_append ?_ hs
  rw [plain_iff]
  intro c hc
  have : c = '0' := (List.mem_replicate.1 hc).2
  rw [this]; decide

theorem fmtF2_plain (x : Float64) : Plain (fmtF2 x) := by
  cases x with
  | nan => unfold Plain; decide
  | inf neg => cases neg <;> (unfold Plain; decide)
  | finite neg m e =>
    unfold fmtF2
    refine plain_append (plain_append (plain_append ?_ (natToString_isPlain _)) ?_)
      (zeroPad_plain 2 (natToString_isPlain _))
    · cases neg <;> (unfold Plain; decide)
    · unfold Plain; decide

theorem splitOn_first (c : Char) (xs as : List Char) (h : c ∉ xs) :
    (xs ++ c :: as).splitOn c = xs :: as.splitOn c := by
  unfold List.splitOn
  apply List.splitOnP_first
  · intro x hx hxc
    have : x = c := by simpa using hxc
    exact h (this ▸ hx)
  · simp

theorem splitOn_single (c : Char) (xs : List Char) (h : c ∉ xs) : xs.splitOn c = [xs] := by
  unfold List.splitOn
  apply List.splitOnP_eq_single
  intro x hx hxc
  have : x = c := by simpa using hxc
  exact h (this ▸ hx)

theorem foldl_append_eq {α : Type} (f : α → String) (xs : List α) (acc : String) :
    xs.foldl (fun tw x => tw ++ f x) acc = acc ++ String.join (xs.map f) := by
  induction xs generalizing acc with
  | nil => apply String.ext; simp
  | cons x xs ih =>
    rw [List.foldl_cons, ih]
    apply String.ext; simp

/-! ## user_checkins.go -/

/-- C1: `Checkins(username)` returns the result of
`CheckinsMinMaxIDLimit(username, 0, 2147483647, 25)`, which is the call of
`getCheckins` on the endpoint `"user/checkins/" + username` with minimum ID 0,
maximum ID 2147483647 and limit 25. -/
theorem Checkins_eq_default_page {Client Result : Type}
    (getCheckins : Client → String → Int → Int → Int → Result)
    (u : UserService Client) (username : String) :
    u.Checkins getCheckins username
        = u.CheckinsMinMaxIDLimit getCheckins username 0 2147483647 25 ∧
      u.Checkins getCheckins username
        = getCheckins u.client ("user/checkins/" ++ username) 0 2147483647 25 ∧
      MaxInt32 = 2147483647 :=
  ⟨rfl, rfl, rfl⟩

/-- C7: `CheckinsMinMaxIDLimit` passes the bounds and the limit it is given to
`getCheckins` as they are, whatever their values, on the endpoint
`"user/checkins/" + username`, and returns what that call returns. -/
theorem CheckinsMinMaxIDLimit_passes_through {Client Result : Type}
    (getCheckins : Client → String → Int → Int → Int → Result)
    (u : UserService Client) (username : String) (minID maxID limit : Int) :
    u.CheckinsMinMaxIDLimit getCheckins username minID maxID limit
      = getCheckins u.client ("user/checkins/" ++ username) minID maxID limit :=
  rfl

/-! ## cmd/untappdctl/main.go -/

theorem sortLoop_of_mem (offset limit : Int) (sort : String) (Sorts : List SortT)
    (h : sort ∈ Sorts) : sortLoop offset limit sort Sorts = some (offset, limit, sort) := by
  induction Sorts with
  | nil => simp at h
  | cons s rest ih =>
    unfold sortLoop
    by_cases hs : sort = s
    · rw [if_pos hs, ← hs]
    · rw [if_neg hs]
      rcases List.mem_cons.1 h with h | h
      · exact absurd h hs
      · exact ih h

theorem sortLoop_of_not_mem (offset limit : Int) (sort : String) (Sorts : List SortT)
    (h : sort ∉ Sorts) : sortLoop offset limit sort Sorts = none := by
  induction Sorts with
  | nil => rfl
  | cons s rest ih =>
    unfold sortLoop
    have hs : sort ≠ s := fun e => h (e ▸ List.mem_cons_self _ _)
    rw [if_neg hs]
    exact ih (fun hm => h (List.mem_cons_of_mem _ hm))

theorem offsetLimitSort_of_mem (isPrint : Char → Bool) (Sorts : List SortT) (ctx : Context)
    (h : ctx.String "sort" ∈ Sorts) :
    offsetLimitSort isPrint Sorts ctx
      = Except.ok (ctx.Int "offset", ctx.Int "limit", ctx.String "sort") := by
  unfold offsetLimitSort
  by_cases he : ctx.String "sort" = ""
  · simp only [he, if_true]
  · simp only [he, if_false, sortLoop_of_mem _ _ _ _ h]

theorem offsetLimitSort_of_empty (isPrint : Char → Bool) (Sorts : List SortT) (ctx : Context)
    (h : ctx.String "sort" = "") :
    offsetLimitSort isPrint Sorts ctx
      = Except.ok (ctx.Int "offset", ctx.Int "limit", ctx.String "sort") := by
  unfold offsetLimitSort
  simp only [h, if_true]

theorem offsetLimitSort_of_not_mem (isPrint : Char → Bool) (Sorts : List SortT) (ctx : Context)
    (he : ctx.String "sort" ≠ "") (h : ctx.String "sort" ∉ Sorts) :
    offsetLimitSort isPrint Sorts ctx
      = Except.error (invalidSortMessage isPrint (ctx.String "sort") Sorts) := by
  unfold offsetLimitSort
  simp only [he, if_false, sortLoop_of_not_mem _ _ _ _ h]

/-- C2: when the value of the `sort` flag is empty or is a member of the
allowed list, `offsetLimitSort` does not fail and returns the offset, the
limit and the sort value as they were given. -/
theorem offsetLimitSort_valid (isPrint : Char → Bool) (Sorts : List SortT) (ctx : Context)
    (h : ctx.String "sort" = "" ∨ ctx.String "sort" ∈ Sorts) :
    offsetLimitSort isPrint Sorts ctx
      = Except.ok (ctx.Int "offset", ctx.Int "limit", ctx.String "sort") := by
  rcases h with h | h
  · exact offsetLimitSort_of_empty isPrint Sorts ctx h
  · exact offsetLimitSort_of_mem isPrint Sorts ctx h

/-- C2, at a valid token and at the empty string. -/
theorem offsetLimitSort_valid_witness :
    offsetLimitSort asciiPrint ["date", "checkin", "highest_rated"]
        (sampleContext ["gopher"] "checkin") = Except.ok (10, 25, "checkin") ∧
      offsetLimitSort asciiPrint ["date", "checkin", "highest_rated"]
        (sampleContext ["gopher"] "") = Except.ok (10, 25, "") :=
  ⟨offsetLimitSort_valid asciiPrint ["date", "checkin", "highest_rated"]
      (sampleContext ["gopher"] "checkin") (Or.inr (by decide)),
    offsetLimitSort_valid asciiPrint ["date", "checkin", "highest_rated"]
      (sampleContext ["gopher"] "") (Or.inl rfl)⟩

theorem intercalate_go_infix (sep x : String) (as : List String) : ∀ acc : String,
    (x.data <:+: acc.data ∨ x ∈ as) → x.data <:+: (String.intercalate.go acc sep as).data := by
  induction as with
  | nil =>
    intro acc h
    rcases h with h | h
    · simpa [String.intercalate.go] using h
    · simp at h
  | cons a as ih =>
    intro acc h
    simp only [String.intercalate.go]
    apply ih
    rcases h with h | h
    · left
      simp only [String.data_append, List.append_assoc]
      exact h.trans (List.infix_append' [] acc.data _)
    · rcases List.mem_cons.1 h with h | h
      · left
        rw [h]
        simp only [String.data_append]
        exact (List.suffix_append _ _).isInfix
      · right; exact h

theorem fmtSorts_lists (Sorts : List SortT) (s : String) (h : s ∈ Sorts) :
    s.data <:+: (fmtSorts Sorts).data := by
  unfold fmtSorts
  simp only [String.data_append]
  refine List.IsInfix.trans ?_ (List.infix_append _ _ _)
  cases Sorts with
  | nil => simp at h
  | cons a as =>
    simp only [String.intercalate]
    apply intercalate_go_infix
    rcases List.mem_cons.1 h with h | h
    · left; rw [h]
    · right; exact h

theorem invalidSortMessage_lists (isPrint : Char → Bool) (sort : String) (Sorts : List SortT)
    (s : String) (h : s ∈ Sorts) : s.data <:+: (invalidSortMessage isPrint sort Sorts).data := by
  unfold invalidSortMessage
  simp only [String.data_append]
  exact (fmtSorts_lists Sorts s h).trans
    (List.infix_append _ _ _)

theorem fmtQ_verbatim (isPrint : Char → Bool) (s : String)
    (h : ∀ c ∈ s.data, c ≠ '"' ∧ c ≠ '\\' ∧ isPrint c = true) :
    fmtQ isPrint s = "\"" ++ s ++ "\"" := by
  unfold fmtQ
  have : String.join (s.data.map (escapeRune isPrint)) = s := by
    apply String.ext
    rw [String.data_join, List.map_map]
    have key : ∀ l : List Char, (∀ c ∈ l, c ≠ '"' ∧ c ≠ '\\' ∧ isPrint c = true) →
        (l.map (String.data ∘ escapeRune isPrint)).flatten = l := by
      intro l
      induction l with
      | nil => intro _; rfl
      | cons c l ih =>
        intro hl
        have hc := hl c (List.mem_cons_self _ _)
        have hesc : escapeRune isPrint c = String.mk [c] := by
          unfold escapeRune
          rw [if_neg (by simp [hc.1, hc.2.1]), if_pos hc.2.2]
        simp only [List.map_cons, List.flatten_cons, Function.comp, hesc]
        rw [ih (fun c hc => hl c (List.mem_cons_of_mem _ hc))]
        rfl
    exact key _ h
  rw [this]

/-- C3, as amended: `offsetLimitSort` fails exactly when the value of the
`sort` flag is not empty and equals no member of the allowed list (the
comparison is equality of strings, so a value that differs from every member,
be it only in letter case, is rejected). The message is then
`invalid sort type `, the value in the quoted form of the verb `%q`,
` (options: `, the bracketed list of the members, and `)`; every member of
the list occurs in it, and the value itself occurs in it as it is when all
its characters are printable and none is a double quote or a backslash. -/
theorem offsetLimitSort_fatal (isPrint : Char → Bool) (Sorts : List SortT) (ctx : Context) :
    ((∃ msg, offsetLimitSort isPrint Sorts ctx = Except.error msg) ↔
        (ctx.String "sort" ≠ "" ∧ ctx.String "sort" ∉ Sorts)) ∧
      invalidSortMessage isPrint (ctx.String "sort") Sorts
        = "invalid sort type " ++ fmtQ isPrint (ctx.String "sort") ++
            " (options: " ++ fmtSorts Sorts ++ ")" ∧
      (ctx.String "sort" ≠ "" → ctx.String "sort" ∉ Sorts →
        offsetLimitSort isPrint Sorts ctx
            = Except.error (invalidSortMessage isPrint (ctx.String "sort") Sorts) ∧
          (∀ s ∈ Sorts, s.data <:+: (invalidSortMessage isPrint (ctx.String "sort") Sorts).data) ∧
          ((∀ c ∈ (ctx.String "sort").data, c ≠ '"' ∧ c ≠ '\\' ∧ isPrint c = true) →
            (ctx.String "sort").data
              <:+: (invalidSortMessage isPrint (ctx.String "sort") Sorts).data)) := by
  refine ⟨⟨?_, ?_⟩, rfl, ?_⟩
  · rintro ⟨msg, hmsg⟩
    by_cases he : ctx.String "sort" = ""
    · rw [offsetLimitSort_of_empty isPrint Sorts ctx he] at hmsg
      cases hmsg
    · refine ⟨he, fun hm => ?_⟩
      rw [offsetLimitSort_of_mem isPrint Sorts ctx hm] at hmsg
      cases hmsg
  · rintro ⟨he, hm⟩
    exact ⟨_, offsetLimitSort_of_not_mem isPrint Sorts ctx he hm⟩
  · intro he hm
    refine ⟨offsetLimitSort_of_not_mem isPrint Sorts ctx he hm,
      fun s hs => invalidSortMessage_lists isPrint _ Sorts s hs, fun hc => ?_⟩
    unfold invalidSortMessage
    rw [fmtQ_verbatim isPrint _ hc]
    simp only [String.data_append]
    exact ⟨"invalid sort type ".data ++ "\"".data,
      "\"".data ++ " (options: ".data ++ (fmtSorts Sorts).data ++ ")".data, by simp⟩

/-- C3, as amended, at the value `Date`, which differs from the token `date`
in letter case only. -/
theorem offsetLimitSort_fatal_witness :
    offsetLimitSort asciiPrint ["date", "checkin", "highest_rated"]
        (sampleContext ["gopher"] "Date")
      = Except.error "invalid sort type \"Date\" (options: [date checkin highest_rated])" :=
  ((offsetLimitSort_fatal asciiPrint ["date", "checkin", "highest_rated"]
      (sampleContext ["gopher"] "Date")).2.2 (by decide) (by decide)).1

/-- C3, as stated, fails: for the value `a"b` the message holds the quoted
form `"a\"b"`, in which the value itself does not occur. -/
theorem offsetLimitSort_message_escapes :
    offsetLimitSort asciiPrint ["date", "checkin", "highest_rated"]
          (sampleContext ["gopher"] "a\"b")
        = Except.error "invalid sort type \"a\\\"b\" (options: [date checkin highest_rated])" ∧
      ¬ ("a\"b".data
          <:+: "invalid sort type \"a\\\"b\" (options: [date checkin highest_rated])".data) :=
  ⟨rfl, by decide⟩

/-- C9, as amended: `mustStringArg` returns the first positional argument
unchanged when there is one and it is not the empty string, and fails with
the message `missing argument: ` followed by the name exactly when
`ctx.Args().First()` is the empty string, that is when there is no positional
argument or the first one is empty. -/
theorem mustStringArg_spec (ctx : Context) (name : String) :
    (∀ a rest, ctx.args = a :: rest → a ≠ "" → mustStringArg ctx name = Except.ok a) ∧
      (Args.First ctx.args = "" →
        mustStringArg ctx name = Except.error ("missing argument: " ++ name)) ∧
      ((∃ msg, mustStringArg ctx name = Except.error msg) ↔ Args.First ctx.args = "") ∧
      (Args.First ctx.args = "" ↔ (ctx.args = [] ∨ ∃ rest, ctx.args = "" :: rest)) := by
  refine ⟨?_, ?_, ?_, ?_⟩
  · intro a rest h ha
    unfold mustStringArg
    simp only [h, Args.First, ha, if_false]
  · intro h
    unfold mustStringArg
    simp only [h, if_true]
  · constructor
    · rintro ⟨msg, hmsg⟩
      by_contra hne
      unfold mustStringArg at hmsg
      simp only [hne, if_false] at hmsg
      cases hmsg
    · intro h
      refine ⟨"missing argument: " ++ name, ?_⟩
      unfold mustStringArg
      simp only [h, if_true]
  · cases hargs : ctx.args with
    | nil => simp [Args.First]
    | cons a rest => simp [Args.First]

/-- C9, as amended, at the arguments `gopher` and at no argument. -/
theorem mustStringArg_spec_witness :
    mustStringArg (sampleContext ["gopher"] "") "username" = Except.ok "gopher" ∧
      mustStringArg (sampleContext [] "") "username"
        = Except.error "missing argument: username" :=
  ⟨(mustStringArg_spec (sampleContext ["gopher"] "") "username").1 "gopher" [] rfl (by decide),
    (mustStringArg_spec (sampleContext [] "") "username").2.1 rfl⟩

/-- C9, as stated, fails: with the empty string as first positional argument
an argument is present, yet `mustStringArg` fails. -/
theorem mustStringArg_empty_argument :
    (sampleContext [""] "").args = [""] ∧
      mustStringArg (sampleContext [""] "") "username"
        = Except.error "missing argument: username" :=
  ⟨rfl, rfl⟩

/-! ## cmd/untappdctl/print.go -/

theorem printBreweries_eq (bs : List Brewery) :
    printBreweries bs = "ID\tName\tLocation\n" ++ String.join (bs.map fun b =>
      fmtD b.ID ++ "\t" ++ b.Name ++ "\t" ++ breweryLocation b ++ "\n") := by
  unfold printBreweries
  exact foldl_append_eq _ bs _

theorem printBreweries_append (pre post : List Brewery) (b : Brewery) :
    printBreweries (pre ++ b :: post) = printBreweries pre ++
      (fmtD b.ID ++ "\t" ++ b.Name ++ "\t" ++ breweryLocation b ++ "\n") ++
      String.join (post.map fun b =>
        fmtD b.ID ++ "\t" ++ b.Name ++ "\t" ++ breweryLocation b ++ "\n") := by
  rw [printBreweries_eq, printBreweries_eq]
  apply String.ext
  simp

/-- C4: the row `printBreweries` writes for a brewery is its ID, its name and,
as location, the country when city and state are both empty, and
`City, State, Country` when city and state are both non-empty. -/
theorem printBreweries_location (pre post : List Brewery) (b : Brewery) :
    (b.Location.City = "" → b.Location.State = "" →
      printBreweries (pre ++ b :: post) = printBreweries pre ++
        (fmtD b.ID ++ "\t" ++ b.Name ++ "\t" ++ b.Country ++ "\n") ++
        String.join (post.map fun b =>
          fmtD b.ID ++ "\t" ++ b.Name ++ "\t" ++ breweryLocation b ++ "\n")) ∧
      (b.Location.City ≠ "" → b.Location.State ≠ "" →
        printBreweries (pre ++ b :: post) = printBreweries pre ++
          (fmtD b.ID ++ "\t" ++ b.Name ++ "\t" ++
            (b.Location.City ++ ", " ++ b.Location.State ++ ", " ++ b.Country) ++ "\n") ++
          String.join (post.map fun b =>
            fmtD b.ID ++ "\t" ++ b.Name ++ "\t" ++ breweryLocation b ++ "\n")) := by
  constructor
  · intro hc _
    have hl : breweryLocation b = b.Country := by
      unfold breweryLocation
      simp [hc]
    rw [printBreweries_append, hl]
  · intro hc hs
    have hl : breweryLocation b
        = b.Location.City ++ ", " ++ b.Location.State ++ ", " ++ b.Country := by
      unfold breweryLocation
      simp [hc, hs]
    rw [printBreweries_append, hl]

/-- C4, at a brewery without city and state and at one with both. -/
theorem printBreweries_location_witness :
    printBreweries [⟨1, "Bell", "US", ⟨"", ""⟩⟩] = "ID\tName\tLocation\n1\tBell\tUS\n" ∧
      printBreweries [⟨1, "Bell", "US", ⟨"Comstock", "MI"⟩⟩]
        = "ID\tName\tLocation\n1\tBell\tComstock, MI, US\n" :=
  ⟨(printBreweries_location [] [] ⟨1, "Bell", "US", ⟨"", ""⟩⟩).1 rfl rfl,
    (printBreweries_location [] [] ⟨1, "Bell", "US", ⟨"Comstock", "MI"⟩⟩).2
      (by decide) (by decide)⟩

/-- C10: when exactly one of city and state is empty, the location
`printBreweries` writes in the brewery's row is the country alone. -/
theorem printBreweries_location_one_missing (pre post : List Brewery) (b : Brewery)
    (h : (b.Location.City = "" ∧ b.Location.State ≠ "") ∨
      (b.Location.City ≠ "" ∧ b.Location.State = "")) :
    breweryLocation b = b.Country ∧
      printBreweries (pre ++ b :: post) = printBreweries pre ++
        (fmtD b.ID ++ "\t" ++ b.Name ++ "\t" ++ b.Country ++ "\n") ++
        String.join (post.map fun b =>
          fmtD b.ID ++ "\t" ++ b.Name ++ "\t" ++ breweryLocation b ++ "\n") := by
  have hl : breweryLocation b = b.Country := by
    unfold breweryLocation
    rcases h with ⟨hc, _⟩ | ⟨_, hs⟩
    · simp [hc]
    · simp [hs]
  refine ⟨hl, ?_⟩
  rw [printBreweries_append, hl]

/-- C10, at a brewery with a city and no state, and at one with a state and
no city. -/
theorem printBreweries_location_one_missing_witness :
    printBreweries [⟨1, "Bell", "US", ⟨"Comstock", ""⟩⟩] = "ID\tName\tLocation\n1\tBell\tUS\n" ∧
      printBreweries [⟨1, "Bell", "US", ⟨"", "MI"⟩⟩] = "ID\tName\tLocation\n1\tBell\tUS\n" :=
  ⟨(printBreweries_location_one_missing [] [] ⟨1, "Bell", "US", ⟨"Comstock", ""⟩⟩
      (Or.inr ⟨by decide, rfl⟩)).2,
    (printBreweries_location_one_missing [] [] ⟨1, "Bell", "US", ⟨"", "MI"⟩⟩
      (Or.inl ⟨rfl, by decide⟩)).2⟩

theorem printFn_eq (tw : String) (b : Badge) : printFn tw b = tw ++ printFn "" b := by
  unfold printFn
  apply String.ext
  simp

theorem join_badge_rows (bs : List Badge) :
    String.join (bs.map fun b => String.join ((b :: b.Levels).map (printFn "")))
      = String.join ((bs.flatMap fun b => b :: b.Levels).map (printFn "")) := by
  apply String.ext
  induction bs with
  | nil => rfl
  | cons b bs ih =>
    simp only [String.data_join, List.map_cons, List.flatten_cons, List.flatMap_cons,
      List.map_append, List.flatten_append, List.append_assoc] at ih ⊢
    rw [ih]

theorem printBadges_eq (bs : List Badge) :
    printBadges bs = "ID\tName\tEarned\tCheckinID\n" ++
      String.join ((bs.flatMap fun b => b :: b.Levels).map (printFn "")) := by
  unfold printBadges
  have hstep : (fun (tw : String) (b : Badge) =>
        b.Levels.foldl (fun tw bb => printFn tw bb) (printFn tw b))
      = fun tw b => tw ++ String.join ((b :: b.Levels).map (printFn "")) := by
    funext tw b
    have h1 : (fun (tw : String) (bb : Badge) => printFn tw bb)
        = fun tw bb => tw ++ printFn "" bb := by
      funext tw bb
      exact printFn_eq tw bb
    rw [h1, foldl_append_eq, printFn_eq tw b]
    apply String.ext
    simp
  rw [hstep, foldl_append_eq, join_badge_rows]
  rfl

theorem badge_rows_length (bs : List Badge) :
    (bs.flatMap fun b => b :: b.Levels).length = (bs.map fun b => 1 + b.Levels.length).sum := by
  induction bs with
  | nil => rfl
  | cons b bs ih =>
    simp only [List.flatMap_cons, List.length_append, List.length_cons, List.map_cons,
      List.sum_cons, ih]
    omega

theorem printBadges_oneLevel (bs : List Badge) :
    printBadges (bs.map Badge.oneLevel) = printBadges bs := by
  rw [printBadges_eq, printBadges_eq]
  congr 2
  induction bs with
  | nil => rfl
  | cons b bs ih =>
    simp only [List.map_cons, List.flatMap_cons, List.map_append, ih]
    congr 1
    cases b with
    | mk i n e c l =>
      simp only [Badge.oneLevel, Badge.Levels, Badge.ID, Badge.Name, Badge.Earned,
        Badge.CheckinID, List.map_cons, List.map_map]
      congr 1

theorem printUsers_false_eq (users : List User) :
    printUsers users false = String.join
      (("ID\tUserName\tName" :: users.map fun u =>
        fmtD u.UID ++ "\t" ++ u.UserName ++ "\t" ++ u.FirstName ++ " " ++ u.LastName).map
          fun l => l ++ "\n") := by
  unfold printUsers
  simp only [Bool.false_eq_true, if_false]
  have hstep : (fun (tw : String) (u : User) =>
        tw ++ (fmtD u.UID ++ "\t" ++ u.UserName ++ "\t" ++ u.FirstName ++ " " ++ u.LastName) ++
          "\n")
      = fun tw u => tw ++
        (fmtD u.UID ++ "\t" ++ u.UserName ++ "\t" ++ u.FirstName ++ " " ++ u.LastName ++
          "\n") := by
    funext tw u
    apply String.ext
    simp
  rw [hstep, foldl_append_eq]
  apply String.ext
  simp [Function.comp_def]

theorem printUsers_true_eq (users : List User) :
    printUsers users true = String.join
      ((("ID\tUserName\tName" ++ "\tCheckins\tBadges\tBeers") :: users.map fun u =>
        (fmtD u.UID ++ "\t" ++ u.UserName ++ "\t" ++ u.FirstName ++ " " ++ u.LastName) ++
          ("\t" ++ fmtD u.Stats.TotalCheckins ++ "\t" ++ fmtD u.Stats.TotalBadges ++
            "\t" ++ fmtD u.Stats.TotalBeers)).map fun l => l ++ "\n") := by
  unfold printUsers
  simp only [if_true]
  have hstep : (fun (tw : String) (u : User) =>
        tw ++ (fmtD u.UID ++ "\t" ++ u.UserName ++ "\t" ++ u.FirstName ++ " " ++ u.LastName) ++
          ("\t" ++ fmtD u.Stats.TotalCheckins ++ "\t" ++ fmtD u.Stats.TotalBadges ++
            "\t" ++ fmtD u.Stats.TotalBeers) ++ "\n")
      = fun tw u => tw ++
        (fmtD u.UID ++ "\t" ++ u.UserName ++ "\t" ++ u.FirstName ++ " " ++ u.LastName ++
          ("\t" ++ fmtD u.Stats.TotalCheckins ++ "\t" ++ fmtD u.Stats.TotalBadges ++
            "\t" ++ fmtD u.Stats.TotalBeers) ++ "\n") := by
    funext tw u
    apply String.ext
    simp
  rw [hstep, foldl_append_eq]
  apply String.ext
  simp [Function.comp_def]

theorem linesOf_join (ls : List String) (h : ∀ l ∈ ls, '\n' ∉ l.data) :
    linesOf (String.join (ls.map fun l => l ++ "\n")) = ls ++ [""] := by
  unfold linesOf
  induction ls with
  | nil => rfl
  | cons l ls ih =>
    have hd : (String.join ((l :: ls).map fun l => l ++ "\n")).data
        = l.data ++ '\n' :: (String.join (ls.map fun l => l ++ "\n")).data := by
      simp only [String.data_join, List.map_cons, List.flatten_cons, String.data_append,
        List.append_assoc]
      rfl
    rw [hd, splitOn_first _ _ _ (h l (List.mem_cons_self _ _)), List.map_cons,
      ih (fun l hl => h l (List.mem_cons_of_mem _ hl))]
    rfl

theorem fieldsOf_eight (a b c d e f g k : String) (ha : Plain a) (hb : Plain b) (hc : Plain c)
    (hd : Plain d) (he : Plain e) (hf : Plain f) (hg : Plain g) (hk : Plain k) :
    fieldsOf (a ++ "\t" ++ b ++ "\t" ++ c ++ "\t" ++ d ++ "\t" ++ e ++ "\t" ++ f ++ "\t" ++ g ++
      "\t" ++ k) = [a, b, c, d, e, f, g, k] := by
  unfold fieldsOf
  have hdata : (a ++ "\t" ++ b ++ "\t" ++ c ++ "\t" ++ d ++ "\t" ++ e ++ "\t" ++ f ++ "\t" ++ g ++
      "\t" ++ k).data = a.data ++ '\t' :: (b.data ++ '\t' :: (c.data ++ '\t' :: (d.data ++ '\t' ::
        (e.data ++ '\t' :: (f.data ++ '\t' :: (g.data ++ '\t' :: k.data)))))) := by
    have htab : "\t".data = ['\t'] := rfl
    simp only [String.data_append, htab, List.append_assoc, List.singleton_append,
      List.cons_append, List.nil_append]
  rw [hdata, splitOn_first _ _ _ ha.1, splitOn_first _ _ _ hb.1, splitOn_first _ _ _ hc.1,
    splitOn_first _ _ _ hd.1, splitOn_first _ _ _ he.1, splitOn_first _ _ _ hf.1,
    splitOn_first _ _ _ hg.1, splitOn_single _ _ hk.1]
  rfl

theorem printCheckins_eq {Toast Comment : Type} (cs : List (Checkin Toast Comment)) :
    printCheckins cs = String.join
      (("ID\tName\tBrewery\tRating\tBadges\tToasts\tComments\tComment" :: cs.map fun c =>
        fmtD c.ID ++ "\t" ++ c.Beer.Name ++ "\t" ++ c.Brewery.Name ++ "\t" ++
          fmtF2 c.UserRating ++ "\t" ++ fmtD c.Badges.length ++ "\t" ++ fmtD c.Toasts.length ++
          "\t" ++ fmtD c.Comments.length ++ "\t" ++ c.Comment).map fun l => l ++ "\n") := by
  unfold printCheckins
  simp only []
  rw [foldl_append_eq]
  apply String.ext
  simp [Function.comp_def]

/-- C8, as amended: for checkins whose beer name, brewery name and comment
hold no tab and no newline, the text `printCheckins` writes consists of the
header line and one line per checkin in order, each ended by a newline, and
each line has the 8 fields ID, Name, Brewery, Rating, Badges, Toasts,
Comments, Comment in that order. -/
theorem printCheckins_lines {Toast Comment : Type} (cs : List (Checkin Toast Comment))
    (h : ∀ c ∈ cs, Plain c.Beer.Name ∧ Plain c.Brewery.Name ∧ Plain c.Comment) :
    linesOf (printCheckins cs)
        = ("ID\tName\tBrewery\tRating\tBadges\tToasts\tComments\tComment" :: cs.map fun c =>
            fmtD c.ID ++ "\t" ++ c.Beer.Name ++ "\t" ++ c.Brewery.Name ++ "\t" ++
              fmtF2 c.UserRating ++ "\t" ++ fmtD c.Badges.length ++ "\t" ++
              fmtD c.Toasts.length ++ "\t" ++ fmtD c.Comments.length ++ "\t" ++ c.Comment)
          ++ [""] ∧
      (linesOf (printCheckins cs)).length = cs.length + 1 + 1 ∧
      fieldsOf "ID\tName\tBrewery\tRating\tBadges\tToasts\tComments\tComment"
        = ["ID", "Name", "Brewery", "Rating", "Badges", "Toasts", "Comments", "Comment"] ∧
      ∀ c ∈ cs, fieldsOf (fmtD c.ID ++ "\t" ++ c.Beer.Name ++ "\t" ++ c.Brewery.Name ++ "\t" ++
          fmtF2 c.UserRating ++ "\t" ++ fmtD c.Badges.length ++ "\t" ++ fmtD c.Toasts.length ++
          "\t" ++ fmtD c.Comments.length ++ "\t" ++ c.Comment)
        = [fmtD c.ID, c.Beer.Name, c.Brewery.Name, fmtF2 c.UserRating, fmtD c.Badges.length,
            fmtD c.Toasts.length, fmtD c.Comments.length, c.Comment] := by
  have htab : Plain "\t" → False := fun hp => hp.1 (by decide)
  have hsep : '\n' ∉ "\t".data := by decide
  have hlines : linesOf (printCheckins cs)
      = ("ID\tName\tBrewery\tRating\tBadges\tToasts\tComments\tComment" :: cs.map fun c =>
          fmtD c.ID ++ "\t" ++ c.Beer.Name ++ "\t" ++ c.Brewery.Name ++ "\t" ++
            fmtF2 c.UserRating ++ "\t" ++ fmtD c.Badges.length ++ "\t" ++
            fmtD c.Toasts.length ++ "\t" ++ fmtD c.Comments.length ++ "\t" ++ c.Comment)
        ++ [""] := by
    rw [printCheckins_eq]
    apply linesOf_join
    intro l hl
    rcases List.mem_cons.1 hl with hl | hl
    · rw [hl]; decide
    · obtain ⟨c, hc, rfl⟩ := List.mem_map.1 hl
      obtain ⟨h1, h2, h3⟩ := h c hc
      simp only [String.data_append, List.mem_append, not_or]
      exact ⟨⟨⟨⟨⟨⟨⟨⟨⟨⟨⟨⟨⟨⟨(fmtD_plain _).2, hsep⟩, h1.2⟩, hsep⟩, h2.2⟩, hsep⟩,
        (fmtF2_plain _).2⟩, hsep⟩, (fmtD_plain _).2⟩, hsep⟩, (fmtD_plain _).2⟩, hsep⟩,
        (fmtD_plain _).2⟩, hsep⟩, h3.2⟩
  refine ⟨hlines, ?_, by decide, ?_⟩
  · rw [hlines]
    simp
  · intro c hc
    obtain ⟨h1, h2, h3⟩ := h c hc
    exact fieldsOf_eight _ _ _ _ _ _ _ _ (fmtD_plain _) h1 h2 (fmtF2_plain _) (fmtD_plain _)
      (fmtD_plain _) (fmtD_plain _) h3

/-- C8, as amended, at one checkin with the comment `good`. -/
theorem printCheckins_lines_witness :
    linesOf (printCheckins [sampleCheckin "good"])
      = ["ID\tName\tBrewery\tRating\tBadges\tToasts\tComments\tComment",
          "1\tb\tbr\t3.75\t0\t0\t1\tgood", ""] :=
  (printCheckins_lines [sampleCheckin "good"] (by
    intro c hc
    rw [List.mem_singleton.1 hc]
    unfold Plain
    decide)).1

/-- C8, as stated, fails: one checkin whose comment holds a newline gives
three lines ended by a newline instead of two, and one whose comment holds a
tab gives a line of nine fields. -/
theorem printCheckins_comment_breaks_rows :
    linesOf (printCheckins [sampleCheckin "so\ngood"])
        = ["ID\tName\tBrewery\tRating\tBadges\tToasts\tComments\tComment",
            "1\tb\tbr\t3.75\t0\t0\t1\tso", "good", ""] ∧
      linesOf (printCheckins [sampleCheckin "so\tgood"])
        = ["ID\tName\tBrewery\tRating\tBadges\tToasts\tComments\tComment",
            "1\tb\tbr\t3.75\t0\t0\t1\tso\tgood", ""] ∧
      fieldsOf "1\tb\tbr\t3.75\t0\t0\t1\tso\tgood"
        = ["1", "b", "br", "3.75", "0", "0", "1", "so", "good"] := by
  refine ⟨by decide, by decide, by decide⟩

theorem fmtD0_plain (w : Nat) (n : Int) : Plain (fmtD0 w n) := by
  unfold fmtD0
  split
  · refine plain_append ?_ (zeroPad_plain _ (natToString_isPlain _))
    unfold Plain
    decide
  · exact zeroPad_plain _ (natToString_isPlain _)

theorem printBadges_join (bs : List Badge) :
    printBadges bs = String.join
      (("ID\tName\tEarned\tCheckinID" :: (bs.flatMap fun b => b :: b.Levels).map fun b =>
        fmtD b.ID ++ "\t" ++ b.Name ++ "\t" ++
          (fmtD0 4 b.Earned.year ++ "-" ++ fmtD0 2 b.Earned.month ++ "-" ++
            fmtD0 2 b.Earned.day) ++
          "\t" ++ fmtD b.CheckinID).map fun l => l ++ "\n") := by
  rw [printBadges_eq]
  apply String.ext
  simp [Function.comp_def, printFn]

/-- C5, as amended: for badges whose names, and whose levels' names, hold no
newline, the text `printBadges` writes consists of the header line and then,
for each badge in order, the line of the badge followed by the lines of its
levels in order, each ended by a newline, and nothing else: the data lines
number the sum over the badges of one plus the number of levels, and the
levels of a level have no part in the text. -/
theorem printBadges_lines (bs : List Badge)
    (h : ∀ b ∈ bs, '\n' ∉ b.Name.data ∧ ∀ l ∈ b.Levels, '\n' ∉ l.Name.data) :
    linesOf (printBadges bs)
        = ("ID\tName\tEarned\tCheckinID" :: (bs.flatMap fun b => b :: b.Levels).map fun b =>
            fmtD b.ID ++ "\t" ++ b.Name ++ "\t" ++
              (fmtD0 4 b.Earned.year ++ "-" ++ fmtD0 2 b.Earned.month ++ "-" ++
                fmtD0 2 b.Earned.day) ++
              "\t" ++ fmtD b.CheckinID) ++ [""] ∧
      (linesOf (printBadges bs)).length
        = 1 + (bs.map fun b => 1 + b.Levels.length).sum + 1 ∧
      printBadges (bs.map Badge.oneLevel) = printBadges bs := by
  have hsep : '\n' ∉ "\t".data := by decide
  have hdash : '\n' ∉ "-".data := by decide
  have hlines : linesOf (printBadges bs)
      = ("ID\tName\tEarned\tCheckinID" :: (bs.flatMap fun b => b :: b.Levels).map fun b =>
          fmtD b.ID ++ "\t" ++ b.Name ++ "\t" ++
            (fmtD0 4 b.Earned.year ++ "-" ++ fmtD0 2 b.Earned.month ++ "-" ++
              fmtD0 2 b.Earned.day) ++
            "\t" ++ fmtD b.CheckinID) ++ [""] := by
    rw [printBadges_join]
    apply linesOf_join
    intro l hl
    rcases List.mem_cons.1 hl with hl | hl
    · rw [hl]; decide
    · obtain ⟨r, hr, rfl⟩ := List.mem_map.1 hl
      obtain ⟨b, hb, hrb⟩ := List.mem_flatMap.1 hr
      have hname : '\n' ∉ r.Name.data := by
        rcases List.mem_cons.1 hrb with hrb | hrb
        · rw [hrb]; exact (h b hb).1
        · exact (h b hb).2 r hrb
      simp only [String.data_append, List.mem_append, not_or]
      exact ⟨⟨⟨⟨⟨⟨(fmtD_plain _).2, hsep⟩, hname⟩, hsep⟩,
        ⟨⟨⟨⟨(fmtD0_plain _ _).2, hdash⟩, (fmtD0_plain _ _).2⟩, hdash⟩, (fmtD0_plain _ _).2⟩⟩,
        hsep⟩, (fmtD_plain _).2⟩
  refine ⟨hlines, ?_, printBadges_oneLevel bs⟩
  rw [hlines]
  simp only [List.length_append, List.length_cons, List.length_map, List.length_nil,
    badge_rows_length]
  omega

/-- C5, as amended, at two badges of which the first has one level, itself
with a level: three data lines. -/
theorem printBadges_lines_witness :
    linesOf (printBadges (sampleBadges "Apprentice"))
      = ["ID\tName\tEarned\tCheckinID", "1\tNewbie\t2015-03-04\t70",
          "2\tNewbie II\t2015-11-21\t71", "4\tApprentice\t2014-12-31\t73", ""] :=
  (printBadges_lines (sampleBadges "Apprentice") (by decide)).1

/-- C5, as stated, fails: a badge whose name holds a newline takes two lines
of the text, so two badges with one level in all give four data lines, not
three. -/
theorem printBadges_name_breaks_rows :
    linesOf (printBadges (sampleBadges "Appren\ntice"))
        = ["ID\tName\tEarned\tCheckinID", "1\tNewbie\t2015-03-04\t70",
            "2\tNewbie II\t2015-11-21\t71", "4\tAppren", "tice\t2014-12-31\t73", ""] ∧
      ((sampleBadges "Appren\ntice").map fun b => 1 + b.Levels.length).sum = 3 := by
  refine ⟨by decide, by decide⟩

theorem zipWith_lines {α : Type} (f g : α → String) (xs : List α) :
    List.zipWith (fun a b => a ++ b) (xs.map f ++ [""]) (xs.map g ++ [""])
      = (xs.map fun x => f x ++ g x) ++ [""] := by
  induction xs with
  | nil => rfl
  | cons x xs ih =>
    simp only [List.map_cons, List.cons_append, List.zipWith_cons_cons, ih]

theorem fieldsOf_extra (a b c : String) (ha : Plain a) (hb : Plain b) (hc : Plain c) :
    fieldsOf ("\t" ++ a ++ "\t" ++ b ++ "\t" ++ c) = ["", a, b, c] := by
  unfold fieldsOf
  have hdata : ("\t" ++ a ++ "\t" ++ b ++ "\t" ++ c).data
      = [] ++ '\t' :: (a.data ++ '\t' :: (b.data ++ '\t' :: c.data)) := by
    have htab : "\t".data = ['\t'] := rfl
    simp only [String.data_append, htab, List.append_assoc, List.singleton_append,
      List.cons_append, List.nil_append]
  rw [hdata, splitOn_first _ _ _ (List.not_mem_nil _), splitOn_first _ _ _ ha.1,
    splitOn_first _ _ _ hb.1, splitOn_single _ _ hc.1]
  rfl

/-- C6, as amended: for users whose user name, first name and last name hold
no newline, the text `printUsers` writes without the extended information is
the header line `ID`, `UserName`, `Name` and one line per user with the ID,
the user name and the first and last name, and the text with the extended
information is that text with three more tab-separated columns at the end of
every line: the labels `Checkins`, `Badges`, `Beers` on the header line and
the user's totals of checkins, badges and beers on each user's line. -/
theorem printUsers_lines (users : List User)
    (h : ∀ u ∈ users,
      '\n' ∉ u.UserName.data ∧ '\n' ∉ u.FirstName.data ∧ '\n' ∉ u.LastName.data) :
    linesOf (printUsers users false)
        = ("ID\tUserName\tName" :: users.map fun u =>
            fmtD u.UID ++ "\t" ++ u.UserName ++ "\t" ++ u.FirstName ++ " " ++ u.LastName)
          ++ [""] ∧
      linesOf (printUsers users true)
        = ("ID\tUserName\tName\tCheckins\tBadges\tBeers" :: users.map fun u =>
            (fmtD u.UID ++ "\t" ++ u.UserName ++ "\t" ++ u.FirstName ++ " " ++ u.LastName) ++
              ("\t" ++ fmtD u.Stats.TotalCheckins ++ "\t" ++ fmtD u.Stats.TotalBadges ++
                "\t" ++ fmtD u.Stats.TotalBeers))
          ++ [""] ∧
      linesOf (printUsers users true)
        = List.zipWith (fun a b => a ++ b) (linesOf (printUsers users false))
            (("\tCheckins\tBadges\tBeers" :: users.map fun u =>
              "\t" ++ fmtD u.Stats.TotalCheckins ++ "\t" ++ fmtD u.Stats.TotalBadges ++
                "\t" ++ fmtD u.Stats.TotalBeers) ++ [""]) ∧
      fieldsOf "\tCheckins\tBadges\tBeers" = ["", "Checkins", "Badges", "Beers"] ∧
      ∀ u : User, fieldsOf ("\t" ++ fmtD u.Stats.TotalCheckins ++ "\t" ++
          fmtD u.Stats.TotalBadges ++ "\t" ++ fmtD u.Stats.TotalBeers)
        = ["", fmtD u.Stats.TotalCheckins, fmtD u.Stats.TotalBadges, fmtD u.Stats.TotalBeers] := by
  have hsep : '\n' ∉ "\t".data := by decide
  have hblank : '\n' ∉ " ".data := by decide
  have hbase : ∀ u ∈ users, '\n' ∉
      (fmtD u.UID ++ "\t" ++ u.UserName ++ "\t" ++ u.FirstName ++ " " ++ u.LastName).data := by
    intro u hu
    obtain ⟨h1, h2, h3⟩ := h u hu
    simp only [String.data_append, List.mem_append, not_or]
    exact ⟨⟨⟨⟨⟨⟨(fmtD_plain _).2, hsep⟩, h1⟩, hsep⟩, h2⟩, hblank⟩, h3⟩
  have hextra : ∀ u : User, '\n' ∉ ("\t" ++ fmtD u.Stats.TotalCheckins ++ "\t" ++
      fmtD u.Stats.TotalBadges ++ "\t" ++ fmtD u.Stats.TotalBeers).data := by
    intro u
    simp only [String.data_append, List.mem_append, not_or]
    exact ⟨⟨⟨⟨⟨hsep, (fmtD_plain _).2⟩, hsep⟩, (fmtD_plain _).2⟩, hsep⟩, (fmtD_plain _).2⟩
  have hfalse : linesOf (printUsers users false)
      = ("ID\tUserName\tName" :: users.map fun u =>
          fmtD u.UID ++ "\t" ++ u.UserName ++ "\t" ++ u.FirstName ++ " " ++ u.LastName)
        ++ [""] := by
    rw [printUsers_false_eq]
    apply linesOf_join
    intro l hl
    rcases List.mem_cons.1 hl with hl | hl
    · rw [hl]; decide
    · obtain ⟨u, hu, rfl⟩ := List.mem_map.1 hl
      exact hbase u hu
  have htrue : linesOf (printUsers users true)
      = ("ID\tUserName\tName\tCheckins\tBadges\tBeers" :: users.map fun u =>
          (fmtD u.UID ++ "\t" ++ u.UserName ++ "\t" ++ u.FirstName ++ " " ++ u.LastName) ++
            ("\t" ++ fmtD u.Stats.TotalCheckins ++ "\t" ++ fmtD u.Stats.TotalBadges ++
              "\t" ++ fmtD u.Stats.TotalBeers))
        ++ [""] := by
    rw [printUsers_true_eq]
    have hhead : "ID\tUserName\tName" ++ "\tCheckins\tBadges\tBeers"
        = "ID\tUserName\tName\tCheckins\tBadges\tBeers" := by decide
    rw [hhead]
    apply linesOf_join
    intro l hl
    rcases List.mem_cons.1 hl with hl | hl
    · rw [hl]; decide
    · obtain ⟨u, hu, rfl⟩ := List.mem_map.1 hl
      rw [String.data_append, List.mem_append, not_or]
      exact ⟨hbase u hu, hextra u⟩
  refine ⟨hfalse, htrue, ?_, by decide, fun u =>
    fieldsOf_extra _ _ _ (fmtD_plain _) (fmtD_plain _) (fmtD_plain _)⟩
  rw [htrue, hfalse]
  simp only [List.cons_append, List.zipWith_cons_cons, zipWith_lines]
  rfl

/-- C6, as amended, at the user `gopher`. -/
theorem printUsers_lines_witness :
    linesOf (printUsers [sampleUser "Go"] false)
        = ["ID\tUserName\tName", "1\tgopher\tGo Pher", ""] ∧
      linesOf (printUsers [sampleUser "Go"] true)
        = ["ID\tUserName\tName\tCheckins\tBadges\tBeers", "1\tgopher\tGo Pher\t10\t2\t7", ""] :=
  ⟨(printUsers_lines [sampleUser "Go"] (by decide)).1,
    (printUsers_lines [sampleUser "Go"] (by decide)).2.1⟩

/-- C6, as stated, fails: for a user whose first name holds a newline the
text has a line, `1`, `gopher`, `G`, that is the same with and without the
extended information: no column is appended to it. -/
theorem printUsers_name_breaks_lines :
    linesOf (printUsers [sampleUser "G\no"] false)
        = ["ID\tUserName\tName", "1\tgopher\tG", "o Pher", ""] ∧
      linesOf (printUsers [sampleUser "G\no"] true)
        = ["ID\tUserName\tName\tCheckins\tBadges\tBeers", "1\tgopher\tG",
            "o Pher\t10\t2\t7", ""] := by
  refine ⟨by decide, by decide⟩

end Untappd
